import Mathlib

/-!
# Verification of the Merkle distribution engine (lst-rewards-indexer)

Shallow embedding of `src/merkle/builder.ts`, `src/merkle/tree.ts`,
`src/merkle/relayer.ts` and `src/merkle/types.ts`.  Buffers are modelled as
lists of byte values (`List Nat`, each element < 256 for meaningful inputs);
64-bit writes carry explicit `% 2 ^ 64` style arithmetic; fallible code
(`new PublicKey`, `writeBigUInt64LE` range errors, throws in the builder)
returns `Option` / `Except`.
-/

namespace LstRewards

/-- Node `Buffer`: a list of byte values. -/
abbrev Buffer := List Nat

/-! ## Byte encodings (`writeBigUInt64LE`, `writeUInt32LE`, big-endian words) -/

/-- `buf.writeBigUInt64LE n`: 8 bytes, little-endian. -/
def le8 (n : Nat) : Buffer :=
  [n % 256, n / 256 % 256, n / 256 ^ 2 % 256, n / 256 ^ 3 % 256,
   n / 256 ^ 4 % 256, n / 256 ^ 5 % 256, n / 256 ^ 6 % 256, n / 256 ^ 7 % 256]

/-- `buf.writeUInt32LE n`: 4 bytes, little-endian. -/
def le4 (n : Nat) : Buffer :=
  [n % 256, n / 256 % 256, n / 256 ^ 2 % 256, n / 256 ^ 3 % 256]

/-- Big-endian 4-byte word (SHA-256 output words). -/
def be4 (n : Nat) : Buffer :=
  [n / 256 ^ 3 % 256, n / 256 ^ 2 % 256, n / 256 % 256, n % 256]

/-- Big-endian 8-byte length field (SHA-256 padding). -/
def be8 (n : Nat) : Buffer :=
  [n / 256 ^ 7 % 256, n / 256 ^ 6 % 256, n / 256 ^ 5 % 256, n / 256 ^ 4 % 256,
   n / 256 ^ 3 % 256, n / 256 ^ 2 % 256, n / 256 % 256, n % 256]

/-- Read a little-endian byte list back as a natural number. -/
def fromLEBytes (l : Buffer) : Nat :=
  l.foldr (fun b acc => b + 256 * acc) 0

/-- UTF-8 encoding of one unicode scalar value, written with plain
division/remainder arithmetic (`0xC0 ||| (c >>> 6)` is `0xC0 + c / 64` for the
in-range cases, etc.). -/
def utf8Char (c : Nat) : List Nat :=
  if c < 0x80 then [c]
  else if c < 0x800 then [0xC0 + c / 64, 0x80 + c % 64]
  else if c < 0x10000 then [0xE0 + c / 4096, 0x80 + c / 64 % 64, 0x80 + c % 64]
  else [0xF0 + c / 262144, 0x80 + c / 4096 % 64, 0x80 + c / 64 % 64, 0x80 + c % 64]

/-- `Buffer.from(string)`: the UTF-8 bytes of a string. -/
def strBytes (s : String) : Buffer :=
  s.data.flatMap (fun c => utf8Char c.toNat)

/-- One hexadecimal digit character (lowercase, as Node's `'hex'` encoding). -/
def hexDigit (n : Nat) : Char :=
  if n < 10 then Char.ofNat (48 + n) else Char.ofNat (87 + n)

/-- `buffer.toString('hex')`. -/
def toHex (b : Buffer) : String :=
  String.mk (b.flatMap (fun x => [hexDigit (x / 16 % 16), hexDigit (x % 16)]))

/-- Value of a hexadecimal digit character, if any. -/
def hexVal (c : Char) : Option Nat :=
  if 48 ≤ c.toNat ∧ c.toNat ≤ 57 then some (c.toNat - 48)
  else if 97 ≤ c.toNat ∧ c.toNat ≤ 102 then some (c.toNat - 87)
  else if 65 ≤ c.toNat ∧ c.toNat ≤ 70 then some (c.toNat - 55)
  else none

/-- `Buffer.from(s, 'hex')`: decode hex pairs, stopping at the first
non-hex pair or odd tail (Node semantics). -/
def fromHexList : List Char → Buffer
  | c1 :: c2 :: rest =>
    match hexVal c1, hexVal c2 with
    | some h, some l => (16 * h + l) :: fromHexList rest
    | _, _ => []
  | _ => []

/-- `Buffer.from(s, 'hex')` on a string. -/
def fromHex (s : String) : Buffer := fromHexList s.data

/-! ## SHA-256 (node `crypto.createHash('sha256')`) -/

/-- 32-bit right-rotation. -/
def rotr32 (x n : Nat) : Nat := ((x >>> n) ||| (x <<< (32 - n))) % 2 ^ 32

/-- SHA-256 small sigma 0. -/
def ssig0 (x : Nat) : Nat := rotr32 x 7 ^^^ rotr32 x 18 ^^^ (x >>> 3)

/-- SHA-256 small sigma 1. -/
def ssig1 (x : Nat) : Nat := rotr32 x 17 ^^^ rotr32 x 19 ^^^ (x >>> 10)

/-- SHA-256 big sigma 0. -/
def bsig0 (x : Nat) : Nat := rotr32 x 2 ^^^ rotr32 x 13 ^^^ rotr32 x 22

/-- SHA-256 big sigma 1. -/
def bsig1 (x : Nat) : Nat := rotr32 x 6 ^^^ rotr32 x 11 ^^^ rotr32 x 25

/-- SHA-256 choice function. -/
def chFn (e f g : Nat) : Nat := (e &&& f) ^^^ ((e ^^^ 0xffffffff) &&& g)

/-- SHA-256 majority function. -/
def majFn (a b c : Nat) : Nat := (a &&& b) ^^^ (a &&& c) ^^^ (b &&& c)

/-- The 64 SHA-256 round constants of FIPS 180-4 (decimal). -/
def sha256K : List Nat :=
  [1116352408, 1899447441, 3049323471, 3921009573,
   961987163, 1508970993, 2453635748, 2870763221,
   3624381080, 310598401, 607225278, 1426881987,
   1925078388, 2162078206, 2614888103, 3248222580,
   3835390401, 4022224774, 264347078, 604807628,
   770255983, 1249150122, 1555081692, 1996064986,
   2554220882, 2821834349, 2952996808, 3210313671,
   3336571891, 3584528711, 113926993, 338241895,
   666307205, 773529912, 1294757372, 1396182291,
   1695183700, 1986661051, 2177026350, 2456956037,
   2730485921, 2820302411, 3259730800, 3345764771,
   3516065817, 3600352804, 4094571909, 275423344,
   430227734, 506948616, 659060556, 883997877,
   958139571, 1322822218, 1537002063, 1747873779,
   1955562222, 2024104815, 2227730452, 2361852424,
   2428436474, 2756734187, 3204031479, 3329325298]

/-- SHA-256 working state: eight 32-bit words. -/
structure Sha256State where
  a : Nat
  b : Nat
  c : Nat
  d : Nat
  e : Nat
  f : Nat
  g : Nat
  h : Nat

/-- SHA-256 initial hash value of FIPS 180-4 (decimal). -/
def sha256Init : Sha256State :=
  ⟨1779033703, 3144134277, 1013904242, 2773480762,
   1359893119, 2600822924, 528734635, 1541459225⟩

/-- One SHA-256 compression round, fed one `(k, w)` pair. -/
def sha256Round (st : Sha256State) (kw : Nat × Nat) : Sha256State :=
  let t1 := (st.h + bsig1 st.e + chFn st.e st.f st.g + kw.1 + kw.2) % 2 ^ 32
  let t2 := (bsig0 st.a + majFn st.a st.b st.c) % 2 ^ 32
  ⟨(t1 + t2) % 2 ^ 32, st.a, st.b, st.c, (st.d + t1) % 2 ^ 32, st.e, st.f, st.g⟩

/-- Split a byte list into big-endian 32-bit words. -/
def beWords : List Nat → List Nat
  | b0 :: b1 :: b2 :: b3 :: rest =>
    (b0 * 2 ^ 24 + b1 * 2 ^ 16 + b2 * 256 + b3) :: beWords rest
  | _ => []

/-- Extend the 16-word message schedule by `k` further words. -/
def schedExtend : Nat → List Nat → List Nat
  | 0, w => w
  | k + 1, w =>
    let n := w.length
    let nw := (ssig1 (w.getD (n - 2) 0) + w.getD (n - 7) 0 +
               ssig0 (w.getD (n - 15) 0) + w.getD (n - 16) 0) % 2 ^ 32
    schedExtend k (w ++ [nw])

/-- Compress one 64-byte block into the state. -/
def sha256Block (st : Sha256State) (block : List Nat) : Sha256State :=
  let w := schedExtend 48 (beWords block)
  let r := (sha256K.zip w).foldl sha256Round st
  ⟨(st.a + r.a) % 2 ^ 32, (st.b + r.b) % 2 ^ 32, (st.c + r.c) % 2 ^ 32,
   (st.d + r.d) % 2 ^ 32, (st.e + r.e) % 2 ^ 32, (st.f + r.f) % 2 ^ 32,
   (st.g + r.g) % 2 ^ 32, (st.h + r.h) % 2 ^ 32⟩

/-- SHA-256 padding: `0x80`, zeros, 8-byte big-endian bit length. -/
def sha256Pad (msg : List Nat) : List Nat :=
  msg ++ [0x80] ++ List.replicate ((64 - (msg.length + 9) % 64) % 64) 0 ++
    be8 (8 * msg.length)

/-- Chunking driven by a fuel argument (each step consumes at least one
element, so the list's length is enough fuel); structural recursion keeps
it reducible in the kernel. -/
def chunksGo (k : Nat) : Nat → List Nat → List (List Nat)
  | _, [] => []
  | 0, _ :: _ => []
  | fuel + 1, x :: rest => (x :: rest).take k :: chunksGo k fuel ((x :: rest).drop k)

/-- Split a list into 64-byte chunks. -/
def chunks64 (l : List Nat) : List (List Nat) :=
  chunksGo 64 l.length l

/-- SHA-256 of a byte string, as 32 bytes. -/
def sha256 (msg : List Nat) : Buffer :=
  let st := (chunks64 (sha256Pad msg)).foldl sha256Block sha256Init
  be4 st.a ++ be4 st.b ++ be4 st.c ++ be4 st.d ++
    be4 st.e ++ be4 st.f ++ be4 st.g ++ be4 st.h

/-! ## Keccak-256 (`js-sha3`'s `keccak256`) -/

/-- 64-bit left-rotation. -/
def rot64 (x n : Nat) : Nat := ((x <<< n) ||| (x >>> (64 - n))) % 2 ^ 64

/-- The 24 Keccak iota round constants (decimal). -/
def keccakRC : List Nat :=
  [1, 32898,
   9223372036854808714, 9223372039002292224,
   32907, 2147483649,
   9223372039002292353, 9223372036854808585,
   138, 136,
   2147516425, 2147483658,
   2147516555, 9223372036854775947,
   9223372036854808713, 9223372036854808579,
   9223372036854808578, 9223372036854775936,
   32778, 9223372039002259466,
   9223372039002292353, 9223372036854808704,
   2147483649, 9223372039002292232]

/-- Rho rotation offsets, one row per `y`, flattened to lane index
`x + 5 * y`. -/
def rhoOff : List Nat :=
  [0, 1, 62, 28, 27] ++ [36, 44, 6, 55, 20] ++ [3, 10, 43, 25, 39] ++
    [41, 45, 15, 21, 8] ++ [18, 2, 61, 56, 14]

/-- One Keccak-f[1600] round on the 25-lane state. -/
def keccakRound (s : List Nat) (rc : Nat) : List Nat :=
  let c := (List.range 5).map (fun x =>
    s.getD x 0 ^^^ s.getD (x + 5) 0 ^^^ s.getD (x + 10) 0 ^^^
      s.getD (x + 15) 0 ^^^ s.getD (x + 20) 0)
  let d := (List.range 5).map (fun x =>
    c.getD ((x + 4) % 5) 0 ^^^ rot64 (c.getD ((x + 1) % 5) 0) 1)
  let a1 := (List.range 25).map (fun i => s.getD i 0 ^^^ d.getD (i % 5) 0)
  let b := (List.range 25).map (fun i =>
    let src := (i % 5 + 3 * (i / 5)) % 5 + 5 * (i % 5)
    rot64 (a1.getD src 0) (rhoOff.getD src 0))
  let a2 := (List.range 25).map (fun i =>
    let x := i % 5
    let y := i / 5
    b.getD i 0 ^^^ ((b.getD ((x + 1) % 5 + 5 * y) 0 ^^^ (2 ^ 64 - 1)) &&&
      b.getD ((x + 2) % 5 + 5 * y) 0))
  a2.set 0 (a2.getD 0 0 ^^^ rc)

/-- The full Keccak-f[1600] permutation: 24 rounds. -/
def keccakF (s : List Nat) : List Nat :=
  keccakRC.foldl keccakRound s

/-- Keccak multi-rate padding for rate 1088 (136-byte blocks), with the
original Keccak domain byte `0x01`. -/
def keccakPad (msg : List Nat) : List Nat :=
  let q := 136 - msg.length % 136
  if q = 1 then msg ++ [0x81]
  else msg ++ [0x01] ++ List.replicate (q - 2) 0 ++ [0x80]

/-- Split a list into 136-byte chunks. -/
def chunks136 (l : List Nat) : List (List Nat) :=
  chunksGo 136 l.length l

/-- Lane reading driven by a fuel argument, as `chunksGo`. -/
def toLanesGo : Nat → List Nat → List Nat
  | _, [] => []
  | 0, _ :: _ => []
  | fuel + 1, x :: rest => fromLEBytes ((x :: rest).take 8) :: toLanesGo fuel ((x :: rest).drop 8)

/-- Read a 136-byte block as 17 little-endian 64-bit lanes. -/
def toLanes (l : List Nat) : List Nat :=
  toLanesGo l.length l

/-- Absorb one padded block into the sponge state and permute. -/
def keccakAbsorbBlock (s : List Nat) (block : List Nat) : List Nat :=
  keccakF (s.zipWith (· ^^^ ·) (toLanes block ++ List.replicate 8 0))

/-- Keccak-256 of a byte string, as 32 bytes. -/
def keccak256 (msg : List Nat) : Buffer :=
  let s := (chunks136 (keccakPad msg)).foldl keccakAbsorbBlock (List.replicate 25 0)
  (s.take 4).flatMap le8

/-! ## Base58 decoding (`new PublicKey(wallet)`) -/

/-- The base58 alphabet. -/
def base58Alphabet : List Char :=
  "123456789ABCDEFGHJKLMNPQRSTUVWXYZabcdefghijkmnopqrstuvwxyz".data

/-- Value of a base58 digit character, if any. -/
def base58Val (c : Char) : Option Nat :=
  let i := base58Alphabet.indexOf c
  if i < 58 then some i else none

/-- Byte expansion of a natural number, least significant first (reversed
before use); `0` maps to the empty list.  The fuel argument (`n` itself is
enough, since `n / 256 < n`) keeps the recursion structural. -/
def natBytesLEGo : Nat → Nat → List Nat
  | 0, _ => []
  | fuel + 1, n => if n = 0 then [] else n % 256 :: natBytesLEGo fuel (n / 256)

/-- Byte expansion of a natural number, least significant first. -/
def natBytesLE (n : Nat) : List Nat :=
  natBytesLEGo n n

/-- Count of leading `'1'` characters (leading zero bytes in base58). -/
def countLeadingOnes : List Char → Nat
  | '1' :: rest => countLeadingOnes rest + 1
  | _ => 0

/-- Base58 decode: digit values, folded big-number, leading `'1'`s as zero
bytes.  `none` on a non-alphabet character. -/
def base58Decode (s : String) : Option (List Nat) :=
  (s.data.mapM base58Val).map (fun digits =>
    List.replicate (countLeadingOnes s.data) 0 ++
      (natBytesLE (digits.foldl (fun acc d => acc * 58 + d) 0)).reverse)

/-- `new PublicKey(wallet).toBuffer()`: base58-decode and require exactly
32 bytes; `none` models the constructor throwing. -/
def pubkeyBytes (s : String) : Option Buffer :=
  match base58Decode s with
  | none => none
  | some b => if b.length = 32 then some b else none

/-! ## `src/merkle/tree.ts`: hashing, tree construction, proofs -/

/-- `DOMAIN_SEPARATOR` from `src/merkle/types.ts`. -/
def DOMAIN_SEPARATOR : String := "L33_MERKLE_V1"

/-- `hash(data)`: Keccak-256 of the bytes (`js-sha3`'s `keccak256`). -/
def hash (data : Buffer) : Buffer := keccak256 data

/-- `Buffer.compare`: lexicographic byte comparison, shorter prefixes first. -/
def bufCompare : Buffer → Buffer → Ordering
  | [], [] => .eq
  | [], _ :: _ => .lt
  | _ :: _, [] => .gt
  | a :: as, b :: bs => if a < b then .lt else if b < a then .gt else bufCompare as bs

/-- `hashPair(left, right)`: sort the two children by `Buffer.compare`
(`compare <= 0` keeps the given order) and hash the concatenation. -/
def hashPair (left right : Buffer) : Buffer :=
  match bufCompare left right with
  | .gt => hash (right ++ left)
  | _ => hash (left ++ right)

/-- `constructLeaf(distributionId, wallet, amount)`:
`hash(DOMAIN_SEPARATOR || distribution_id_bytes || wallet_pubkey || amount_le_u64)`.
`none` models `new PublicKey(wallet)` throwing on an invalid address. -/
def constructLeaf (distributionId : String) (wallet : String) (amount : Nat) :
    Option Buffer :=
  (pubkeyBytes wallet).map (fun wb =>
    hash (strBytes DOMAIN_SEPARATOR ++ fromHex distributionId ++ wb ++ le8 amount))

/-- One pass of `buildLayers`' inner `for` loop: hash adjacent pairs, an
unpaired last node is hashed with itself. -/
def combineLayer : List Buffer → List Buffer
  | [] => []
  | [a] => [hashPair a a]
  | a :: b :: rest => hashPair a b :: combineLayer rest

/-- Each combination step halves the node count, rounding up. -/
theorem combineLayer_length : ∀ l : List Buffer,
    (combineLayer l).length = (l.length + 1) / 2
  | [] => rfl
  | [_] => by simp [combineLayer]
  | _ :: _ :: rest => by
    simp only [combineLayer, List.length_cons, combineLayer_length rest]
    omega

/-- The layer loop driven by a fuel argument: each round at least halves
the layer, so the leaf count bounds the number of rounds.  Structural
recursion keeps the builder reducible in the kernel. -/
def buildLayersGo : Nat → List Buffer → List (List Buffer)
  | 0, layer => [layer]
  | fuel + 1, layer =>
    if layer.length ≤ 1 then [layer]
    else layer :: buildLayersGo fuel (combineLayer layer)

/-- `buildLayers()`: all layers from the leaves up, stopping when the top
layer has a single node. -/
def buildLayers (layer : List Buffer) : List (List Buffer) :=
  buildLayersGo layer.length layer

/-- `getRoot()`: the single node of the last layer. -/
def getRoot (leaves : List Buffer) : Buffer :=
  ((buildLayers leaves).getLastD []).headD []

/-- The sibling recorded by `getProof` at one layer: the adjacent node, or
the node itself when the odd tail has no sibling. -/
def sibNode (layer : List Buffer) (ci : Nat) : Buffer :=
  let siblingIndex := if ci % 2 = 1 then ci - 1 else ci + 1
  if siblingIndex < layer.length then layer.getD siblingIndex []
  else layer.getD ci []

/-- `getProof`'s walk over all layers but the last, halving the index. -/
def getProofAux : List (List Buffer) → Nat → List Buffer
  | [], _ => []
  | [_], _ => []
  | layer :: next :: rest, ci => sibNode layer ci :: getProofAux (next :: rest) (ci / 2)

/-- `getProof(index)` (the source throws on an out-of-range index; claims
only use in-range indices). -/
def getProof (leaves : List Buffer) (index : Nat) : List Buffer :=
  getProofAux (buildLayers leaves) index

/-- `MerkleTree.verify(root, leaf, proof)`: fold the proof with `hashPair`
and compare with the root. -/
def verify (root leaf : Buffer) (proof : List Buffer) : Bool :=
  bufCompare (proof.foldl hashPair leaf) root == .eq

/-- One proof entry of the artifact (`MerkleProof` in `types.ts`; the JSON
stores `amount` as a decimal string, modelled by its numeric value). -/
structure MerkleProofRec where
  index : Nat
  wallet : String
  amount : Nat
  proof : List String
deriving DecidableEq, Repr

/-- `buildMerkleData(distributionId, entries)`: leaves via `constructLeaf`,
tree, hex root, and one hex proof per leaf.  `none` models a thrown
`PublicKey` error or the empty-leaves constructor throw. -/
def buildMerkleData (distributionId : String) (entries : List (String × Nat)) :
    Option (String × List MerkleProofRec) :=
  match entries.mapM (fun e => constructLeaf distributionId e.1 e.2) with
  | none => none
  | some leaves =>
    if leaves.length = 0 then none
    else some (toHex (getRoot leaves),
      ((List.range entries.length).zip entries).map (fun ie =>
        ⟨ie.1, ie.2.1, ie.2.2, (getProof leaves ie.1).map toHex⟩))

/-! ## `src/merkle/builder.ts`: CSV parsing, identifier, artifact -/

/-- One parsed CSV row (`PayoutEntry` in `types.ts`; amounts are the
parsed `BigInt` values, modelled as naturals — negative rows are excluded
by the same `> 0` filter that drops zero rows). -/
structure PayoutEntry where
  wallet : String
  mint : String
  amount : Nat
  rewardId : String
  windowId : String
deriving DecidableEq, Repr

/-- `parseCsv`, from the row level (the line/column splitting of the CSV
text is file I/O): keep rows with a non-empty wallet and `amount > 0n`. -/
def parseCsv (rows : List PayoutEntry) : List PayoutEntry :=
  rows.filter (fun e => decide (e.wallet ≠ "" ∧ 0 < e.amount))

/-- The byte string hashed by `generateDistributionId`:
`'L33_DIST_V1' || reward_id || window_id || mint || total_amount_le_u64`. -/
def idPreimage (rewardId windowId mint : String) (totalAmount : Nat) : Buffer :=
  strBytes "L33_DIST_V1" ++ strBytes rewardId ++ strBytes windowId ++
    strBytes mint ++ le8 totalAmount

/-- `generateDistributionId`: SHA-256 of the concatenation, as 64 hex
characters (node `crypto`, not the tree's Keccak). -/
def generateDistributionId (rewardId windowId mint : String)
    (totalAmount : Nat) : String :=
  toHex (sha256 (idPreimage rewardId windowId mint totalAmount))

/-- `[...new Set(xs)]`: first occurrences, in order. -/
def uniqueList (xs : List String) : List String :=
  xs.foldl (fun acc m => if m ∈ acc then acc else acc ++ [m]) []

/-- `DistributionArtifact` (`types.ts`): `totalAmount` and proof amounts are
decimal strings in the JSON, modelled by their numeric values. -/
structure DistributionArtifact where
  distributionId : String
  rewardId : String
  windowId : String
  mint : String
  totalAmount : Nat
  merkleRoot : String
  numRecipients : Nat
  csvHash : String
  proofs : List MerkleProofRec
  createdAt : String
  version : String
deriving DecidableEq, Repr

/-- `buildDistributionArtifact(csvPath)` over parsed rows.  `csvHash` stands
for `hashFile(csvPath)` and `createdAt` for `new Date().toISOString()`, both
ambient I/O inputs.  `.error` models the throws; the `total < 2^64` guard
models `writeBigUInt64LE`'s range error inside `generateDistributionId`. -/
def buildDistributionArtifact (rows : List PayoutEntry)
    (csvHash createdAt : String) : Except String DistributionArtifact :=
  let entries := parseCsv rows
  if entries.length = 0 then .error "No valid payout entries in CSV"
  else
    let mints := uniqueList (entries.map (·.mint))
    if mints.length ≠ 1 then
      .error ("Expected single mint, found: " ++ String.intercalate ", " mints)
    else
      let e0 := entries.headD ⟨"", "", 0, "", ""⟩
      let totalAmount := (entries.map (·.amount)).sum
      if totalAmount < 2 ^ 64 then
        let distributionId :=
          generateDistributionId e0.rewardId e0.windowId e0.mint totalAmount
        match buildMerkleData distributionId
            (entries.map (fun e => (e.wallet, e.amount))) with
        | none => .error "Invalid public key input"
        | some rp =>
          .ok ⟨distributionId, e0.rewardId, e0.windowId, e0.mint, totalAmount,
            rp.1, entries.length, csvHash, rp.2, createdAt, "1.0.0"⟩
      else .error "RangeError: value out of 64-bit range"

/-- The `{valid, errors}` result of `validateArtifact`. -/
structure ValidationResult where
  valid : Bool
  errors : List String
deriving DecidableEq, Repr

/-- `validateArtifact(artifact)`: field presence, proof-amount total versus
`totalAmount`, recipient count.  (No proof is checked against the root.) -/
def validateArtifact (a : DistributionArtifact) : ValidationResult :=
  let proofTotal := a.proofs.foldl (fun s p => s + p.amount) 0
  let errors :=
    (if a.distributionId = "" then ["Missing distributionId"] else []) ++
    (if a.merkleRoot = "" then ["Missing merkleRoot"] else []) ++
    (if a.mint = "" then ["Missing mint"] else []) ++
    (if a.proofs.length = 0 then ["Missing or empty proofs"] else []) ++
    (if proofTotal ≠ a.totalAmount then
      ["Total mismatch: artifact says " ++ toString a.totalAmount ++
        ", proofs sum to " ++ toString proofTotal] else []) ++
    (if a.proofs.length ≠ a.numRecipients then
      ["Recipient count mismatch: " ++ toString a.numRecipients ++ " vs " ++
        toString a.proofs.length ++ " proofs"] else [])
  ⟨errors.length == 0, errors⟩

/-! ## `src/merkle/relayer.ts`: claim store updates and batch processing

The Postgres `merkle_claims` table is modelled as an association list keyed
by `(distribution_id, leaf_index)`; RPC reads (`getAccountInfo`) and the
`sendAndConfirmTransaction` outcome are oracle functions passed in. -/

/-- One `merkle_claims` row (timestamps `last_attempt` / `confirmed_at`
modelled as set/unset flags). -/
structure ClaimRow where
  wallet : String
  amount : Nat
  status : String
  txSignature : Option String
  attempts : Nat
  lastAttempt : Bool
  confirmedAt : Bool
  errorMessage : Option String
deriving DecidableEq, Repr

/-- The claim store: rows keyed by `(distribution_id, leaf_index)`. -/
abbrev ClaimDb := List ((String × Nat) × ClaimRow)

/-- Read the first row with the given key. -/
def dbGet (db : ClaimDb) (key : String × Nat) : Option ClaimRow :=
  match db with
  | [] => none
  | e :: rest => if e.1 = key then some e.2 else dbGet rest key

/-- Apply `g` to every row whose key matches (the SQL `UPDATE ... WHERE`). -/
def dbMapAt (db : ClaimDb) (key : String × Nat) (g : ClaimRow → ClaimRow) :
    ClaimDb :=
  db.map (fun e => if e.1 = key then (e.1, g e.2) else e)

/-- The row update performed by `updateClaimStatus`'s SQL: set `status`,
`tx_signature = COALESCE($4, tx_signature)`, `attempts = attempts + 1`,
`last_attempt = NOW()`, `confirmed_at` when confirming, `error_message = $5`. -/
def applyClaimUpdate (status : String) (txSignature : Option String)
    (errorMessage : Option String) (r : ClaimRow) : ClaimRow :=
  { r with
    status := status
    txSignature := match txSignature with | some s => some s | none => r.txSignature
    attempts := r.attempts + 1
    lastAttempt := true
    confirmedAt := if status = "confirmed" then true else r.confirmedAt
    errorMessage := errorMessage }

/-- `updateClaimStatus(distributionId, index, status, txSignature, errorMessage)`. -/
def updateClaimStatus (db : ClaimDb) (distributionId : String) (index : Nat)
    (status : String) (txSignature : Option String)
    (errorMessage : Option String) : ClaimDb :=
  dbMapAt db (distributionId, index) (applyClaimUpdate status txSignature errorMessage)

/-- The chain state the batch reads: whether the claim PDA for an index
exists, and whether a wallet's associated token account exists. -/
structure ChainState where
  claimed : Nat → Bool
  ataExists : String → Bool

/-- Relayer tunables used by `processBatch`. -/
structure RelayerConfig where
  maxRetries : Nat
  computeUnitLimit : Nat
  computeUnitPrice : Nat

/-- A transaction instruction, as assembled by `processBatch`: the compute
budget pair, optional ATA creation, and the claim instruction carrying the
encoded data bytes of `buildClaimInstruction`. -/
inductive Instruction where
  | computeLimit (units : Nat)
  | computePrice (microLamports : Nat)
  | createAta (wallet : String)
  | claim (data : List Nat)
deriving DecidableEq, Repr

/-- The Anchor discriminator for `claim`. -/
def claimDiscriminator : List Nat := [62, 198, 214, 193, 213, 159, 108, 210]

/-- The data bytes of `buildClaimInstruction`:
`[discriminator (8)] [index u64 LE] [amount u64 LE] [proof_len u32 LE] [proof]`. -/
def claimIxData (index : Nat) (amount : Nat) (proof : List String) : List Nat :=
  claimDiscriminator ++ le8 index ++ le8 amount ++ le4 proof.length ++
    proof.flatMap fromHex

/-- The leaf index encoded in a claim instruction's data bytes. -/
def claimIxIndex (data : List Nat) : Nat :=
  fromLEBytes ((data.drop 8).take 8)

/-- The reconciliation/assembly loop over the batch (`for (const claim of
claims)`): an already-claimed index is marked `confirmed` and skipped;
otherwise the claim's instructions are appended and it joins
`claimsToProcess`. -/
def reconcileBatch (distributionId : String) (chain : ChainState) :
    List MerkleProofRec → ClaimDb →
      List Instruction × List MerkleProofRec × ClaimDb
  | [], db => ([], [], db)
  | c :: rest, db =>
    if chain.claimed c.index then
      reconcileBatch distributionId chain rest
        (updateClaimStatus db distributionId c.index "confirmed" none none)
    else
      let r := reconcileBatch distributionId chain rest db
      ((if chain.ataExists c.wallet then [] else [.createAta c.wallet]) ++
        [.claim (claimIxData c.index c.amount c.proof)] ++ r.1,
       c :: r.2.1, r.2.2)

/-- What `processBatch` returns, together with its externally visible
effects: the claim-store state and the instructions of the transaction. -/
structure BatchOutcome where
  processed : Nat
  failed : Nat
  skipped : Nat
  db : ClaimDb
  instructions : List Instruction
deriving Repr

/-- `processBatch(artifact, claims, ...)`.  `sendOk a` is the oracle for
whether `sendAndConfirmTransaction` succeeds on attempt number `a`;
`sig` the returned signature, `errMsg` the last error's message. -/
def processBatch (cfg : RelayerConfig) (distributionId : String)
    (chain : ChainState) (sendOk : Nat → Bool) (sig errMsg : String)
    (claims : List MerkleProofRec) (db : ClaimDb) : BatchOutcome :=
  let r := reconcileBatch distributionId chain claims db
  let instructions :=
    [.computeLimit cfg.computeUnitLimit, .computePrice cfg.computeUnitPrice] ++ r.1
  let claimsToProcess := r.2.1
  let db1 := r.2.2
  if claimsToProcess.length = 0 then
    ⟨0, 0, claims.length, db1, instructions⟩
  else
    let db2 := claimsToProcess.foldl (fun d c =>
      updateClaimStatus d distributionId c.index "submitted" none none) db1
    match (List.range cfg.maxRetries).find? (fun a => sendOk (a + 1)) with
    | some _ =>
      ⟨claimsToProcess.length, 0, claims.length - claimsToProcess.length,
        claimsToProcess.foldl (fun d c =>
          updateClaimStatus d distributionId c.index "confirmed" (some sig) none) db2,
        instructions⟩
    | none =>
      ⟨0, claimsToProcess.length, claims.length - claimsToProcess.length,
        claimsToProcess.foldl (fun d c =>
          updateClaimStatus d distributionId c.index "failed" none (some errMsg)) db2,
        instructions⟩

/-! ## Lemmas: byte comparison and pair hashing -/

/-- `Buffer.compare` of a buffer with itself is `eq`. -/
theorem bufCompare_self : ∀ l : Buffer, bufCompare l l = .eq
  | [] => rfl
  | _ :: as => by simp [bufCompare, bufCompare_self as]

/-- `Buffer.compare` returning `eq` means the buffers are equal. -/
theorem bufCompare_eq : ∀ {a b : Buffer}, bufCompare a b = .eq → a = b
  | [], [], _ => rfl
  | [], _ :: _, h => by simp [bufCompare] at h
  | _ :: _, [], h => by simp [bufCompare] at h
  | a :: as, b :: bs, h => by
    simp only [bufCompare] at h
    by_cases h1 : a < b
    · rw [if_pos h1] at h
      exact Ordering.noConfusion h
    · by_cases h2 : b < a
      · rw [if_neg h1, if_pos h2] at h
        exact Ordering.noConfusion h
      · rw [if_neg h1, if_neg h2] at h
        have hab : a = b := by omega
        rw [hab, bufCompare_eq h]

/-- Swapping the arguments of `Buffer.compare` swaps the ordering. -/
theorem bufCompare_swap : ∀ a b : Buffer, bufCompare b a = (bufCompare a b).swap
  | [], [] => rfl
  | [], _ :: _ => rfl
  | _ :: _, [] => rfl
  | a :: as, b :: bs => by
    simp only [bufCompare]
    rcases Nat.lt_trichotomy a b with h | h | h
    · simp only [if_pos h, if_neg (show ¬ b < a by omega)]
      rfl
    · subst h
      simp only [if_neg (lt_irrefl a)]
      exact bufCompare_swap as bs
    · simp only [if_pos h, if_neg (show ¬ a < b by omega)]
      rfl

/-- The canonical `min || max` ordering makes `hashPair` commutative. -/
theorem hashPair_comm (a b : Buffer) : hashPair a b = hashPair b a := by
  unfold hashPair
  have hswap := bufCompare_swap a b
  rcases heq : bufCompare a b with _ | _ | _
  · rw [heq] at hswap
    rw [hswap]
    rfl
  · rw [heq] at hswap
    rw [hswap, bufCompare_eq heq]
    rfl
  · rw [heq] at hswap
    rw [hswap]
    rfl

/-! ## Lemmas: layer construction and proof folding -/

/-- The layer loop ignores the exact fuel, provided there is enough of it
(one unit less than the layer size suffices). -/
theorem buildLayersGo_fuel : ∀ (f1 : Nat), ∀ (f2 : Nat) (l : List Buffer),
    l.length ≤ f1 + 1 → l.length ≤ f2 + 1 →
    buildLayersGo f1 l = buildLayersGo f2 l := by
  intro f1
  induction f1 with
  | zero =>
    intro f2 l h1 _
    cases f2 with
    | zero => rfl
    | succ f2' => simp [buildLayersGo, if_pos h1]
  | succ f1' ih =>
    intro f2 l h1 h2
    cases f2 with
    | zero => simp [buildLayersGo, if_pos h2]
    | succ f2' =>
      by_cases hle : l.length ≤ 1
      · simp [buildLayersGo, if_pos hle]
      · simp only [buildLayersGo, if_neg hle]
        rw [ih f2' (combineLayer l) (by rw [combineLayer_length]; omega)
          (by rw [combineLayer_length]; omega)]

/-- Unfolding `buildLayers` at a base layer. -/
theorem buildLayers_of_le (layer : List Buffer) (h : layer.length ≤ 1) :
    buildLayers layer = [layer] := by
  unfold buildLayers
  cases hl : layer.length with
  | zero => rfl
  | succ n => simp [buildLayersGo, if_pos h]

/-- Unfolding `buildLayers` at a layer with at least two nodes. -/
theorem buildLayers_of_gt (layer : List Buffer) (h : 1 < layer.length) :
    buildLayers layer = layer :: buildLayers (combineLayer layer) := by
  unfold buildLayers
  rcases hl : layer.length with _ | _ | m
  · omega
  · omega
  · simp only [buildLayersGo, if_neg (by omega : ¬ layer.length ≤ 1)]
    congr 1
    exact buildLayersGo_fuel (m + 1) (combineLayer layer).length (combineLayer layer)
      (by rw [combineLayer_length, hl]; omega) (by omega)

/-- The layer loop never returns an empty list of layers. -/
theorem buildLayersGo_ne_nil (f : Nat) (l : List Buffer) : buildLayersGo f l ≠ [] := by
  cases f with
  | zero => simp [buildLayersGo]
  | succ f' =>
    simp only [buildLayersGo]
    split <;> simp

/-- `buildLayers` always returns at least one layer. -/
theorem buildLayers_ne_nil (layer : List Buffer) : buildLayers layer ≠ [] :=
  buildLayersGo_ne_nil layer.length layer

/-- The root of a base layer is its head. -/
theorem getRoot_of_le (layer : List Buffer) (h : layer.length ≤ 1) :
    getRoot layer = layer.headD [] := by
  rw [getRoot, buildLayers_of_le layer h]
  rfl

/-- The root of a taller tree is the root over the combined layer. -/
theorem getRoot_of_gt (layer : List Buffer) (h : 1 < layer.length) :
    getRoot layer = getRoot (combineLayer layer) := by
  rw [getRoot, getRoot, buildLayers_of_gt layer h]
  obtain ⟨l2, rest, heq⟩ :=
    List.exists_cons_of_ne_nil (buildLayers_ne_nil (combineLayer layer))
  rw [heq]
  rfl

/-- The node the combined layer holds at the parent position `ci / 2`. -/
theorem combineLayer_getD : ∀ (l : List Buffer) (ci : Nat), ci < l.length →
    (combineLayer l).getD (ci / 2) [] =
      if ci % 2 = 1 then hashPair (l.getD (ci - 1) []) (l.getD ci [])
      else if ci + 1 < l.length then hashPair (l.getD ci []) (l.getD (ci + 1) [])
      else hashPair (l.getD ci []) (l.getD ci [])
  | [], ci, h => absurd h (by simp)
  | [a], 0, _ => by simp [combineLayer]
  | [a], ci + 1, h => by simp at h
  | a :: b :: rest, 0, _ => by simp [combineLayer]
  | a :: b :: rest, 1, _ => by simp [combineLayer]
  | a :: b :: rest, k + 2, h => by
    have hk : k < rest.length := by
      simp only [List.length_cons] at h
      omega
    have IH := combineLayer_getD rest k hk
    simp only [combineLayer]
    rw [show (k + 2) / 2 = k / 2 + 1 by omega]
    rw [List.getD_cons_succ, IH]
    by_cases hodd : k % 2 = 1
    · rw [if_pos hodd, if_pos (by omega : (k + 2) % 2 = 1)]
      rw [show k + 2 - 1 = (k - 1) + 2 by omega]
      simp only [List.getD_cons_succ]
    · rw [if_neg hodd, if_neg (by omega : ¬ (k + 2) % 2 = 1)]
      by_cases hnext : k + 1 < rest.length
      · rw [if_pos hnext,
          if_pos (by simp only [List.length_cons]; omega : k + 2 + 1 < (a :: b :: rest).length)]
        simp only [List.getD_cons_succ]
      · rw [if_neg hnext,
          if_neg (by simp only [List.length_cons]; omega : ¬ k + 2 + 1 < (a :: b :: rest).length)]
        simp only [List.getD_cons_succ]

/-- Folding a node with its recorded sibling gives the parent node. -/
theorem hashPair_sibNode (l : List Buffer) (ci : Nat) (h : ci < l.length) :
    hashPair (l.getD ci []) (sibNode l ci) = (combineLayer l).getD (ci / 2) [] := by
  rw [combineLayer_getD l ci h]
  simp only [sibNode]
  by_cases hodd : ci % 2 = 1
  · rw [if_pos hodd, if_pos hodd, if_pos (by omega : ci - 1 < l.length)]
    exact hashPair_comm _ _
  · rw [if_neg hodd, if_neg hodd]
    by_cases hnext : ci + 1 < l.length
    · rw [if_pos hnext, if_pos hnext]
    · rw [if_neg hnext, if_neg hnext]

/-- Walking the proof from any in-range leaf reproduces the root. -/
theorem foldl_getProof (layer : List Buffer) (ci : Nat) (h : ci < layer.length) :
    (getProof layer ci).foldl hashPair (layer.getD ci []) = getRoot layer := by
  by_cases hle : layer.length ≤ 1
  · have h0 : ci = 0 := by omega
    subst h0
    rw [getRoot_of_le layer hle, getProof, buildLayers_of_le layer hle]
    cases layer with
    | nil => simp at h
    | cons a t => simp [getProofAux]
  · push_neg at hle
    have hcomb : ci / 2 < (combineLayer layer).length := by
      rw [combineLayer_length]
      omega
    have IH := foldl_getProof (combineLayer layer) (ci / 2) hcomb
    rw [getProof, buildLayers_of_gt layer hle]
    obtain ⟨l2, rest, heq⟩ :=
      List.exists_cons_of_ne_nil (buildLayers_ne_nil (combineLayer layer))
    rw [heq]
    simp only [getProofAux, List.foldl_cons]
    rw [hashPair_sibNode layer ci h, ← heq, ← getProof, IH,
      getRoot_of_gt layer hle]
termination_by layer.length
decreasing_by
  rw [combineLayer_length]
  omega

/-! ## Lemmas: encodings are injective -/

/-- A UTF-8 character encoding determines the scalar and the remainder of
the stream: the head byte's range separates the four length classes. -/
theorem utf8Char_append_inj (c c' : Nat) (r r' : List Nat)
    (h : utf8Char c ++ r = utf8Char c' ++ r') : c = c' ∧ r = r' := by
  unfold utf8Char at h
  split_ifs at h <;>
    simp only [List.cons_append, List.nil_append, List.cons.injEq] at h <;>
    first
      | (exact ⟨by omega, h.2⟩)
      | (exact ⟨by omega, h.2.2⟩)
      | (exact ⟨by omega, h.2.2.2⟩)
      | (exact ⟨by omega, h.2.2.2.2⟩)
      | (exfalso; omega)

/-- UTF-8 encoding of character lists is injective. -/
theorem utf8List_inj : ∀ cs cs' : List Char,
    cs.flatMap (fun c => utf8Char c.toNat) = cs'.flatMap (fun c => utf8Char c.toNat) →
      cs = cs'
  | [], [], _ => rfl
  | [], c' :: cs', h => by
    rw [List.flatMap_nil, List.flatMap_cons] at h
    unfold utf8Char at h
    split_ifs at h <;> simp at h
  | c :: cs, [], h => by
    rw [List.flatMap_nil, List.flatMap_cons] at h
    unfold utf8Char at h
    split_ifs at h <;> simp at h
  | c :: cs, c' :: cs', h => by
    rw [List.flatMap_cons, List.flatMap_cons] at h
    obtain ⟨h1, h2⟩ := utf8Char_append_inj _ _ _ _ h
    have hc : c = c' := Char.ext (UInt32.toNat.inj h1)
    rw [hc, utf8List_inj cs cs' h2]

/-- `Buffer.from(string)` is injective. -/
theorem strBytes_inj {s t : String} (h : strBytes s = strBytes t) : s = t := by
  have hd := utf8List_inj s.data t.data h
  cases s
  cases t
  exact congrArg String.mk hd

/-- Little-endian 8-byte encoding round-trips below `2 ^ 64`. -/
theorem fromLEBytes_le8 (n : Nat) (h : n < 2 ^ 64) : fromLEBytes (le8 n) = n := by
  simp only [le8, fromLEBytes, List.foldr_cons, List.foldr_nil]
  omega

/-- Little-endian 8-byte encoding is injective below `2 ^ 64`. -/
theorem le8_inj {m n : Nat} (hm : m < 2 ^ 64) (hn : n < 2 ^ 64)
    (h : le8 m = le8 n) : m = n := by
  have := congrArg fromLEBytes h
  rwa [fromLEBytes_le8 m hm, fromLEBytes_le8 n hn] at this

/-! ## Lemmas: the builder -/

/-- `parseCsv` is idempotent: filtering a second time changes nothing. -/
theorem parseCsv_idem (rows : List PayoutEntry) :
    parseCsv (parseCsv rows) = parseCsv rows := by
  simp [parseCsv, List.filter_filter]

/-- The artifact depends on the rows only through their parsed form. -/
theorem buildDistributionArtifact_congr {rows rows' : List PayoutEntry}
    (cs ca : String) (h : parseCsv rows = parseCsv rows') :
    buildDistributionArtifact rows cs ca = buildDistributionArtifact rows' cs ca := by
  unfold buildDistributionArtifact
  rw [h]

/-- `mapM` over an option-valued function succeeds when every image does,
with the length preserved. -/
theorem mapM_option_some {α β : Type} (f : α → Option β) :
    ∀ l : List α, (∀ x ∈ l, (f x).isSome) →
      ∃ ys, l.mapM f = some ys ∧ ys.length = l.length
  | [], _ => ⟨[], rfl, rfl⟩
  | x :: xs, h => by
    obtain ⟨y, hy⟩ := Option.isSome_iff_exists.mp (h x (by simp))
    obtain ⟨ys, hys, hlen⟩ :=
      mapM_option_some f xs (fun a ha => h a (by simp [ha]))
    refine ⟨y :: ys, ?_, by simp [hlen]⟩
    rw [List.mapM_cons, hy, hys]
    rfl

/-- The entry the builder draws the artifact's metadata from:
`entries[0]` of the parsed rows. -/
def firstEntry (rows : List PayoutEntry) : PayoutEntry :=
  (parseCsv rows).headD ⟨"", "", 0, "", ""⟩

/-- The total the builder commits to: the sum of the parsed amounts. -/
def parsedTotal (rows : List PayoutEntry) : Nat :=
  ((parseCsv rows).map (·.amount)).sum

/-- Reduction of a successful `buildDistributionArtifact` run: with valid
entries, a single mint, an in-range total and decodable wallets, the build
returns `.ok` and the artifact's identity fields come from the first parsed
entry. -/
theorem buildDistributionArtifact_ok (rows : List PayoutEntry) (cs ca : String)
    (hne : (parseCsv rows).length ≠ 0)
    (hm : (uniqueList ((parseCsv rows).map (·.mint))).length = 1)
    (htot : parsedTotal rows < 2 ^ 64)
    (hw : ∀ e ∈ parseCsv rows, (pubkeyBytes e.wallet).isSome) :
    ∃ a, buildDistributionArtifact rows cs ca = .ok a ∧
      a.rewardId = (firstEntry rows).rewardId ∧
      a.windowId = (firstEntry rows).windowId ∧
      a.mint = (firstEntry rows).mint ∧
      a.distributionId = generateDistributionId (firstEntry rows).rewardId
        (firstEntry rows).windowId (firstEntry rows).mint (parsedTotal rows) ∧
      a.numRecipients = (parseCsv rows).length := by
  have hsome : ∀ p ∈ (parseCsv rows).map (fun e => (e.wallet, e.amount)),
      (constructLeaf (generateDistributionId (firstEntry rows).rewardId
        (firstEntry rows).windowId (firstEntry rows).mint (parsedTotal rows))
        p.1 p.2).isSome := by
    intro p hp
    obtain ⟨e, he, rfl⟩ := List.mem_map.mp hp
    simpa [constructLeaf] using hw e he
  obtain ⟨leaves, hmap, hlen⟩ := mapM_option_some _ _ hsome
  have hlne : ¬ leaves.length = 0 := by
    rw [hlen, List.length_map]
    exact hne
  have hbmd : ∃ rp, buildMerkleData (generateDistributionId
      (firstEntry rows).rewardId (firstEntry rows).windowId
      (firstEntry rows).mint (parsedTotal rows))
      ((parseCsv rows).map (fun e => (e.wallet, e.amount))) = some rp := by
    unfold buildMerkleData
    simp only [hmap, if_neg hlne]
    exact ⟨_, rfl⟩
  obtain ⟨rp, hbmd⟩ := hbmd
  refine ⟨⟨generateDistributionId (firstEntry rows).rewardId (firstEntry rows).windowId
      (firstEntry rows).mint (parsedTotal rows), (firstEntry rows).rewardId,
      (firstEntry rows).windowId, (firstEntry rows).mint, parsedTotal rows,
      rp.1, (parseCsv rows).length, cs, rp.2, ca, "1.0.0"⟩,
    ?_, rfl, rfl, rfl, rfl, rfl⟩
  unfold buildDistributionArtifact
  simp only [if_neg hne, if_neg (show ¬ (uniqueList ((parseCsv rows).map (·.mint))).length ≠ 1
    from not_ne_iff.mpr hm)]
  rw [show ((parseCsv rows).map (fun x => x.amount)).sum = parsedTotal rows from rfl,
    show (parseCsv rows).headD ⟨"", "", 0, "", ""⟩ = firstEntry rows from rfl,
    if_pos htot, hbmd]

/-! ## Lemmas: the relayer's claim store and batch loop -/

/-- Reading through a keyed row update. -/
theorem dbGet_dbMapAt : ∀ (db : ClaimDb) (key key' : String × Nat)
    (g : ClaimRow → ClaimRow),
    dbGet (dbMapAt db key g) key' =
      if key' = key then (dbGet db key').map g else dbGet db key'
  | [], key, key', g => by
    simp [dbGet, dbMapAt, ite_self]
  | e :: rest, key, key', g => by
    simp only [dbMapAt, List.map_cons]
    by_cases h1 : e.1 = key
    · rw [if_pos h1]
      by_cases h2 : e.1 = key'
      · have hk : key' = key := by rw [← h1, h2]
        simp [dbGet, h2, hk]
      · have hne : ¬ key' = key := fun hk => h2 (by rw [h1, hk])
        simp only [dbGet, if_neg h2, if_neg hne]
        have := dbGet_dbMapAt rest key key' g
        simp only [dbMapAt] at this
        rw [this, if_neg hne]
    · rw [if_neg h1]
      by_cases h2 : e.1 = key'
      · have hne : ¬ key' = key := fun hk => h1 (by rw [h2, hk])
        simp [dbGet, h2, if_neg hne]
      · simp only [dbGet, if_neg h2]
        have := dbGet_dbMapAt rest key key' g
        simp only [dbMapAt] at this
        rw [this]

/-- Reading a key a fold of row updates never touches. -/
theorem dbGet_foldl_preserve (did : String) (i : Nat)
    (F : ClaimDb → MerkleProofRec → ClaimDb) :
    ∀ (l : List MerkleProofRec) (db : ClaimDb),
      (∀ d c, c ∈ l → dbGet (F d c) (did, i) = dbGet d (did, i)) →
      dbGet (l.foldl F db) (did, i) = dbGet db (did, i)
  | [], db, _ => rfl
  | c :: rest, db, h => by
    rw [List.foldl_cons,
      dbGet_foldl_preserve did i F rest (F db c)
        (fun d x hx => h d x (List.mem_cons_of_mem c hx)),
      h db c (List.mem_cons_self c rest)]

/-- Reading a key a fold of row updates touches exactly once: the fold
applies `g` once when the element indices are distinct and some element
carries the key's index. -/
theorem dbGet_foldl_touch (did : String) (i : Nat)
    (F : ClaimDb → MerkleProofRec → ClaimDb) (g : ClaimRow → ClaimRow)
    (hne : ∀ d c, c.index ≠ i → dbGet (F d c) (did, i) = dbGet d (did, i))
    (heq : ∀ d c, c.index = i → dbGet (F d c) (did, i) = (dbGet d (did, i)).map g) :
    ∀ (l : List MerkleProofRec) (db : ClaimDb) (c : MerkleProofRec),
      c ∈ l → c.index = i → (l.map (·.index)).Nodup →
      dbGet (l.foldl F db) (did, i) = (dbGet db (did, i)).map g
  | [], _, _, hmem, _, _ => absurd hmem (List.not_mem_nil _)
  | x :: rest, db, c, hmem, hci, hnodup => by
    rw [List.foldl_cons]
    by_cases hx : x.index = i
    · have hrest : ∀ y ∈ rest, y.index ≠ i := by
        intro y hy hyi
        have : x.index ∈ rest.map (·.index) := by
          rw [hx, ← hyi]
          exact List.mem_map_of_mem _ hy
        simp only [List.map_cons, List.nodup_cons] at hnodup
        exact hnodup.1 this
      rw [dbGet_foldl_preserve did i F rest (F db x)
        (fun d y hy => hne d y (hrest y hy)), heq db x hx]
    · have hcrest : c ∈ rest := by
        rcases List.mem_cons.mp hmem with hcx | hcr
        · exact absurd (hcx ▸ hci) hx
        · exact hcr
      have hnodup' : (rest.map (·.index)).Nodup := by
        simp only [List.map_cons, List.nodup_cons] at hnodup
        exact hnodup.2
      rw [dbGet_foldl_touch did i F g hne heq rest (F db x) c hcrest hci hnodup',
        hne db x hx]

/-- The claim-store effect of the reconciliation loop is a fold of
confirmed-updates over the already-claimed entries. -/
theorem reconcileBatch_db (did : String) (chain : ChainState) :
    ∀ (claims : List MerkleProofRec) (db : ClaimDb),
      (reconcileBatch did chain claims db).2.2 =
        claims.foldl (fun d c => if chain.claimed c.index then
          updateClaimStatus d did c.index "confirmed" none none else d) db
  | [], _ => rfl
  | c :: rest, db => by
    rw [List.foldl_cons]
    by_cases h : chain.claimed c.index
    · simp only [reconcileBatch, h, if_true]
      exact reconcileBatch_db did chain rest _
    · simp only [reconcileBatch, h, if_false, Bool.false_eq_true]
      exact reconcileBatch_db did chain rest db

/-- The claims that survive reconciliation are exactly the not-yet-claimed
ones, in order. -/
theorem reconcileBatch_toProcess (did : String) (chain : ChainState) :
    ∀ (claims : List MerkleProofRec) (db : ClaimDb),
      (reconcileBatch did chain claims db).2.1 =
        claims.filter (fun c => !chain.claimed c.index)
  | [], _ => rfl
  | c :: rest, db => by
    by_cases h : chain.claimed c.index
    · simp only [reconcileBatch, h, if_true, List.filter_cons, Bool.not_true]
      exact reconcileBatch_toProcess did chain rest _
    · simp only [reconcileBatch, h, if_false, Bool.false_eq_true, List.filter_cons,
        Bool.not_false]
      rw [reconcileBatch_toProcess did chain rest db]
      simp

/-- The instructions assembled by reconciliation: per surviving claim, the
optional ATA creation followed by its claim instruction. -/
theorem reconcileBatch_instructions (did : String) (chain : ChainState) :
    ∀ (claims : List MerkleProofRec) (db : ClaimDb),
      (reconcileBatch did chain claims db).1 =
        (claims.filter (fun c => !chain.claimed c.index)).flatMap (fun c =>
          (if chain.ataExists c.wallet then [] else [.createAta c.wallet]) ++
            [.claim (claimIxData c.index c.amount c.proof)])
  | [], _ => rfl
  | c :: rest, db => by
    by_cases h : chain.claimed c.index
    · simp only [reconcileBatch, h, if_true, List.filter_cons, Bool.not_true]
      exact reconcileBatch_instructions did chain rest _
    · simp only [reconcileBatch, h, if_false, Bool.false_eq_true, List.filter_cons,
        Bool.not_false]
      rw [reconcileBatch_instructions did chain rest db]
      simp [List.append_assoc]

/-- The index encoded into a claim instruction's data bytes is recovered by
`claimIxIndex` (for a 64-bit index, as `writeBigUInt64LE` requires). -/
theorem claimIxIndex_claimIxData (index amount : Nat) (proof : List String)
    (h : index < 2 ^ 64) : claimIxIndex (claimIxData index amount proof) = index := by
  have hr : claimIxIndex (claimIxData index amount proof) = fromLEBytes (le8 index) := rfl
  rw [hr]
  exact fromLEBytes_le8 index h

/-- The claim-store state `processBatch` leaves behind, written as explicit
folds: reconciliation updates, then (if anything is left) the submitted
marks followed by the confirmed or failed marks. -/
theorem processBatch_db (cfg : RelayerConfig) (did : String) (chain : ChainState)
    (sendOk : Nat → Bool) (sig errMsg : String) (claims : List MerkleProofRec)
    (db : ClaimDb) :
    (processBatch cfg did chain sendOk sig errMsg claims db).db =
      (if (claims.filter (fun c => !chain.claimed c.index)).length = 0 then
        (reconcileBatch did chain claims db).2.2
      else
        match (List.range cfg.maxRetries).find? (fun a => sendOk (a + 1)) with
        | some _ =>
          (claims.filter (fun c => !chain.claimed c.index)).foldl (fun d c =>
            updateClaimStatus d did c.index "confirmed" (some sig) none)
            ((claims.filter (fun c => !chain.claimed c.index)).foldl (fun d c =>
              updateClaimStatus d did c.index "submitted" none none)
              (reconcileBatch did chain claims db).2.2)
        | none =>
          (claims.filter (fun c => !chain.claimed c.index)).foldl (fun d c =>
            updateClaimStatus d did c.index "failed" none (some errMsg))
            ((claims.filter (fun c => !chain.claimed c.index)).foldl (fun d c =>
              updateClaimStatus d did c.index "submitted" none none)
              (reconcileBatch did chain claims db).2.2)) := by
  unfold processBatch
  simp only [reconcileBatch_toProcess]
  split
  · rfl
  · split <;> rfl

/-- What one batch does to one claim's row: an already-claimed index gets
the reconciliation confirmed-update; an unclaimed one gets the submitted
mark and then the confirmed (on transaction success) or failed mark. -/
theorem processBatch_dbGet (cfg : RelayerConfig) (did : String) (chain : ChainState)
    (sendOk : Nat → Bool) (sig errMsg : String) (claims : List MerkleProofRec)
    (db : ClaimDb) (c : MerkleProofRec)
    (hmem : c ∈ claims) (hnodup : (claims.map (·.index)).Nodup) :
    dbGet (processBatch cfg did chain sendOk sig errMsg claims db).db (did, c.index) =
      if chain.claimed c.index then
        (dbGet db (did, c.index)).map (applyClaimUpdate "confirmed" none none)
      else
        (dbGet db (did, c.index)).map (fun r =>
          (match (List.range cfg.maxRetries).find? (fun a => sendOk (a + 1)) with
            | some _ => applyClaimUpdate "confirmed" (some sig) none
            | none => applyClaimUpdate "failed" none (some errMsg))
            (applyClaimUpdate "submitted" none none r)) := by
  have hget_upd : ∀ (d : ClaimDb) (j : Nat) (st : String) (tx em : Option String),
      j ≠ c.index →
      dbGet (updateClaimStatus d did j st tx em) (did, c.index) = dbGet d (did, c.index) := by
    intro d j st tx em hj
    rw [updateClaimStatus, dbGet_dbMapAt,
      if_neg (fun hk => hj (Prod.ext_iff.mp hk).2.symm)]
  have hget_upd_eq : ∀ (d : ClaimDb) (st : String) (tx em : Option String),
      dbGet (updateClaimStatus d did c.index st tx em) (did, c.index) =
        (dbGet d (did, c.index)).map (applyClaimUpdate st tx em) := by
    intro d st tx em
    rw [updateClaimStatus, dbGet_dbMapAt, if_pos rfl]
  rw [processBatch_db]
  by_cases hcl : chain.claimed c.index
  · -- reconciliation confirms the row; no later fold touches it
    have hdb1 : dbGet (reconcileBatch did chain claims db).2.2 (did, c.index) =
        (dbGet db (did, c.index)).map (applyClaimUpdate "confirmed" none none) := by
      rw [reconcileBatch_db]
      exact dbGet_foldl_touch did c.index _ _
        (fun d x hx => by
          by_cases hx2 : chain.claimed x.index
          · rw [if_pos hx2]
            exact hget_upd d x.index _ _ _ hx
          · rw [if_neg hx2])
        (fun d x hx => by
          rw [hx, if_pos hcl]
          exact hget_upd_eq d _ _ _)
        claims db c hmem rfl hnodup
    have htp_ne : ∀ x ∈ claims.filter (fun c => !chain.claimed c.index),
        x.index ≠ c.index := by
      intro x hx hxi
      have := (List.mem_filter.mp hx).2
      rw [hxi] at this
      simp [hcl] at this
    have hp1 : ∀ (st : String) (tx em : Option String) (d0 : ClaimDb),
        dbGet ((claims.filter (fun c => !chain.claimed c.index)).foldl
          (fun d x => updateClaimStatus d did x.index st tx em) d0) (did, c.index) =
          dbGet d0 (did, c.index) := fun st tx em d0 =>
      dbGet_foldl_preserve did c.index _ _ d0
        (fun d x hx => hget_upd d x.index st tx em (htp_ne x hx))
    rw [if_pos hcl]
    by_cases hlen : (claims.filter (fun c => !chain.claimed c.index)).length = 0
    · rw [if_pos hlen]
      exact hdb1
    · rw [if_neg hlen]
      rcases hfind : (List.range cfg.maxRetries).find? (fun a => sendOk (a + 1)) with _ | a
      · simp only [hfind]
        rw [hp1, hp1]
        exact hdb1
      · simp only [hfind]
        rw [hp1, hp1]
        exact hdb1
  · -- the row survives reconciliation untouched and is marked twice
    have hdb1 : dbGet (reconcileBatch did chain claims db).2.2 (did, c.index) =
        dbGet db (did, c.index) := by
      rw [reconcileBatch_db]
      refine dbGet_foldl_preserve did c.index _ claims db (fun d x hx => ?_)
      by_cases hx2 : chain.claimed x.index
      · rw [if_pos hx2]
        refine hget_upd d x.index _ _ _ (fun hxi => ?_)
        rw [hxi] at hx2
        exact hcl hx2
      · rw [if_neg hx2]
    have hctp : c ∈ claims.filter (fun c => !chain.claimed c.index) := by
      rw [List.mem_filter]
      exact ⟨hmem, by simp [hcl]⟩
    have htplen : (claims.filter (fun c => !chain.claimed c.index)).length ≠ 0 := by
      intro h0
      rw [List.length_eq_zero] at h0
      rw [h0] at hctp
      exact List.not_mem_nil c hctp
    have htpnodup : ((claims.filter (fun c => !chain.claimed c.index)).map
        (·.index)).Nodup :=
      hnodup.sublist (List.Sublist.map _ (List.filter_sublist claims))
    have hp2 : ∀ (st : String) (tx em : Option String) (d0 : ClaimDb),
        dbGet ((claims.filter (fun c => !chain.claimed c.index)).foldl
          (fun d x => updateClaimStatus d did x.index st tx em) d0) (did, c.index) =
          (dbGet d0 (did, c.index)).map (applyClaimUpdate st tx em) := fun st tx em d0 =>
      dbGet_foldl_touch did c.index _ (applyClaimUpdate st tx em)
        (fun d x hx => hget_upd d x.index st tx em hx)
        (fun d x hx => hx ▸ hget_upd_eq d st tx em)
        _ d0 c hctp rfl htpnodup
    rw [if_neg hcl, if_neg htplen]
    rcases hfind : (List.range cfg.maxRetries).find? (fun a => sendOk (a + 1)) with _ | a
    · simp only [hfind]
      rw [hp2, hp2, hdb1, Option.map_map]
      rfl
    · simp only [hfind]
      rw [hp2, hp2, hdb1, Option.map_map]
      rfl

/-- The instructions of the transaction a batch submits: compute-budget
pair, then per surviving claim its (optional) ATA creation and claim
instruction. -/
theorem processBatch_instructions (cfg : RelayerConfig) (did : String)
    (chain : ChainState) (sendOk : Nat → Bool) (sig errMsg : String)
    (claims : List MerkleProofRec) (db : ClaimDb) :
    (processBatch cfg did chain sendOk sig errMsg claims db).instructions =
      Instruction.computeLimit cfg.computeUnitLimit ::
        Instruction.computePrice cfg.computeUnitPrice ::
        (claims.filter (fun c => !chain.claimed c.index)).flatMap (fun c =>
          (if chain.ataExists c.wallet then [] else [.createAta c.wallet]) ++
            [.claim (claimIxData c.index c.amount c.proof)]) := by
  unfold processBatch
  simp only [reconcileBatch_toProcess]
  split
  · simp [reconcileBatch_instructions]
  · split <;> simp [reconcileBatch_instructions]

/-- A boolean filter and its negation partition a list's length. -/
theorem length_filter_partition {α : Type} (p : α → Bool) :
    ∀ l : List α, (l.filter p).length + (l.filter (fun x => !p x)).length = l.length
  | [] => rfl
  | x :: rest => by
    by_cases h : p x
    · simp only [List.filter_cons, h, Bool.not_true, if_true]
      rw [if_neg (by simp)]
      simp only [List.length_cons]
      rw [← length_filter_partition p rest]
      omega
    · simp only [List.filter_cons, h, Bool.not_false]
      rw [if_neg (by simp [h]), if_pos (by simp [h])]
      simp only [List.length_cons]
      rw [← length_filter_partition p rest]
      omega

/-- The counters `processBatch` returns: everything already claimed is
counted as skipped, and only surviving claims can be processed or failed. -/
theorem processBatch_counts (cfg : RelayerConfig) (did : String)
    (chain : ChainState) (sendOk : Nat → Bool) (sig errMsg : String)
    (claims : List MerkleProofRec) (db : ClaimDb) :
    (processBatch cfg did chain sendOk sig errMsg claims db).skipped =
        (claims.filter (fun x => chain.claimed x.index)).length ∧
      (processBatch cfg did chain sendOk sig errMsg claims db).processed +
          (processBatch cfg did chain sendOk sig errMsg claims db).failed ≤
        (claims.filter (fun x => !chain.claimed x.index)).length := by
  have hpart := length_filter_partition (fun x => chain.claimed x.index) claims
  unfold processBatch
  simp only [reconcileBatch_toProcess]
  split
  · next h =>
    refine ⟨?_, by simp⟩
    simp only []
    omega
  · next h =>
    split <;> refine ⟨by simp only []; omega, by simp⟩

/-- Cancelling an equal suffix of an append. -/
theorem append_cancel_end {x y s : List Nat} (h : x ++ s = y ++ s) : x = y := by
  have hl : x.length = y.length := by
    have := congrArg List.length h
    simp only [List.length_append] at this
    omega
  exact (List.append_inj h hl).1

/-! ## The claims -/

/-- C1: for every non-empty list of leaves and in-range index `i`, folding
the proof emitted by `getProof i` starting from `leaves[i]` with the
canonical min/max pairing reproduces the root: `MerkleTree.verify`
accepts. -/
theorem claim1_verify_getProof (leaves : List Buffer) (i : Nat)
    (h : i < leaves.length) :
    verify (getRoot leaves) (leaves.getD i []) (getProof leaves i) = true := by
  unfold verify
  rw [foldl_getProof leaves i h, bufCompare_self]
  rfl

/-- C1 witness: a concrete three-leaf tree at index 2. -/
theorem claim1_verify_getProof_witness :
    2 < ([List.replicate 32 0, List.replicate 32 1, List.replicate 32 2] :
        List Buffer).length ∧
    verify (getRoot [List.replicate 32 0, List.replicate 32 1, List.replicate 32 2])
      (([List.replicate 32 0, List.replicate 32 1, List.replicate 32 2] :
        List Buffer).getD 2 [])
      (getProof [List.replicate 32 0, List.replicate 32 1, List.replicate 32 2] 2) =
      true :=
  ⟨by decide, claim1_verify_getProof _ 2 (by decide)⟩

set_option maxRecDepth 20000 in
/-- C2 counterexample: the distribution-identifier primitive (SHA-256, via
node `crypto`) and the leaf/node primitive (`hash`, Keccak-256 via
`js-sha3`) disagree already on the empty byte string, refuting "for every
byte string the two produce equal digests". -/
theorem claim2_counterexample : hash [] ≠ sha256 [] := by decide

set_option maxRecDepth 20000 in
/-- C2 amended: the two digest primitives are distinct 256-bit hash
functions — `generateDistributionId` hashes with SHA-256 while leaf
encoding and node combination hash with Keccak-256; both produce 32 bytes
but differ (e.g. on the empty input). -/
theorem claim2_two_primitives :
    (∀ r w m t, generateDistributionId r w m t = toHex (sha256 (idPreimage r w m t))) ∧
    (∀ d, hash d = keccak256 d) ∧
    (sha256 []).length = 32 ∧ (hash []).length = 32 ∧ sha256 [] ≠ hash [] :=
  ⟨fun _ _ _ _ => rfl, fun _ => rfl, by decide, by decide, by decide⟩

/-- C3 counterexample: with one pending claim (attempts = 0), a single
submission observed to succeed leaves attempts = 2 (mark-submitted plus
mark-confirmed), not 1; and reconciliation of an already-claimed index
leaves attempts = 1, not 0. -/
theorem claim3_counterexample :
    ((dbGet (processBatch ⟨3, 200000, 1⟩ "d" ⟨fun _ => false, fun _ => true⟩
        (fun _ => true) "sig" "err" [⟨0, "w", 5, []⟩]
        [(("d", 0), ⟨"w", 5, "pending", none, 0, false, false, none⟩)]).db
        ("d", 0)).map (·.attempts) = some 2 ∧
      (dbGet (processBatch ⟨3, 200000, 1⟩ "d" ⟨fun _ => false, fun _ => true⟩
        (fun _ => true) "sig" "err" [⟨0, "w", 5, []⟩]
        [(("d", 0), ⟨"w", 5, "pending", none, 0, false, false, none⟩)]).db
        ("d", 0)).map (·.attempts) ≠ some 1) ∧
    ((dbGet (processBatch ⟨3, 200000, 1⟩ "d" ⟨fun _ => true, fun _ => true⟩
        (fun _ => true) "sig" "err" [⟨0, "w", 5, []⟩]
        [(("d", 0), ⟨"w", 5, "pending", none, 0, false, false, none⟩)]).db
        ("d", 0)).map (·.attempts) = some 1 ∧
      (dbGet (processBatch ⟨3, 200000, 1⟩ "d" ⟨fun _ => true, fun _ => true⟩
        (fun _ => true) "sig" "err" [⟨0, "w", 5, []⟩]
        [(("d", 0), ⟨"w", 5, "pending", none, 0, false, false, none⟩)]).db
        ("d", 0)).map (·.attempts) ≠ some 0) := by
  refine ⟨⟨by decide, by decide⟩, ⟨by decide, by decide⟩⟩

/-- C3 amended: `updateClaimStatus` increments `attempts` on every status
write, so a submission observed to completion increments attempts twice
(once at mark-submitted and once at mark-confirmed or mark-failed), and a
reconciliation-confirm with no submission increments it once. -/
theorem claim3_attempts_per_update (cfg : RelayerConfig) (did : String)
    (chain : ChainState) (sendOk : Nat → Bool) (sig errMsg : String)
    (claims : List MerkleProofRec) (db : ClaimDb) (c : MerkleProofRec) (r : ClaimRow)
    (hr : dbGet db (did, c.index) = some r)
    (hmem : c ∈ claims) (hnodup : (claims.map (·.index)).Nodup) :
    (dbGet (processBatch cfg did chain sendOk sig errMsg claims db).db
        (did, c.index)).map (·.attempts) =
      some (r.attempts + if chain.claimed c.index then 1 else 2) := by
  rw [processBatch_dbGet cfg did chain sendOk sig errMsg claims db c hmem hnodup, hr]
  by_cases hcl : chain.claimed c.index
  · simp [hcl, applyClaimUpdate]
  · simp only [if_neg hcl, Option.map_some]
    rcases (List.range cfg.maxRetries).find? (fun a => sendOk (a + 1)) with _ | a <;>
      simp [applyClaimUpdate]

/-- C3 witness: the amended count at a concrete one-claim batch whose
transaction succeeds on the first attempt. -/
theorem claim3_attempts_per_update_witness :
    (dbGet (processBatch ⟨3, 200000, 1⟩ "d" ⟨fun _ => false, fun _ => true⟩
        (fun _ => true) "sig" "err" [⟨0, "w", 5, []⟩]
        [(("d", 0), ⟨"w", 5, "pending", none, 0, false, false, none⟩)]).db
        ("d", 0)).map (·.attempts) = some 2 :=
  claim3_attempts_per_update ⟨3, 200000, 1⟩ "d" ⟨fun _ => false, fun _ => true⟩
    (fun _ => true) "sig" "err" [⟨0, "w", 5, []⟩]
    [(("d", 0), ⟨"w", 5, "pending", none, 0, false, false, none⟩)]
    ⟨0, "w", 5, []⟩ ⟨"w", 5, "pending", none, 0, false, false, none⟩
    rfl (by decide) (by decide)

/-- C9: `hashPair` is commutative — the children are ordered by
lexicographic byte comparison before hashing. -/
theorem claim9_hashPair_comm (a b : Buffer) : hashPair a b = hashPair b a :=
  hashPair_comm a b

/-- C7: a tree over exactly one leaf has that leaf as its root, emits the
empty proof for index 0, and the verifier accepts the empty proof. -/
theorem claim7_single_leaf (l : Buffer) :
    getRoot [l] = l ∧ getProof [l] 0 = [] ∧ verify (getRoot [l]) l [] = true := by
  have hroot : getRoot [l] = l := by
    rw [getRoot_of_le [l] (by simp)]
    rfl
  refine ⟨hroot, ?_, ?_⟩
  · rw [getProof, buildLayers_of_le [l] (by simp)]
    rfl
  · unfold verify
    rw [hroot, show List.foldl hashPair l [] = l from rfl, bufCompare_self]
    rfl

/-- Replace the first character of a hex string (mutating one nibble of the
encoded byte). -/
def mutateHexString (s : String) : String :=
  match s.data with
  | [] => s
  | c :: cs => String.mk ((if c = '0' then '1' else '0') :: cs)

/-- Mutate one byte of one `proof_nodes` entry of an artifact: the first
node of the first proof. -/
def mutateFirstProofNode (a : DistributionArtifact) : DistributionArtifact :=
  { a with proofs :=
      match a.proofs with
      | [] => []
      | p :: ps =>
        { p with proof :=
            match p.proof with
            | [] => []
            | n :: ns => mutateHexString n :: ns } :: ps }

/-- A concrete two-recipient artifact produced by the builder. -/
def c4Artifact : DistributionArtifact :=
  match buildDistributionArtifact
      [⟨"11111111111111111111111111111111", "m1", 1000, "r1", "w1"⟩,
       ⟨"11111111111111111111111111111112", "m1", 500, "r1", "w1"⟩]
      "cafebabe" "2024-01-01T00:00:00.000Z" with
  | .ok a => a
  | .error _ => ⟨"", "", "", "", 0, "", 0, "", [], "", ""⟩

set_option maxRecDepth 40000 in
/-- C4 counterexample: `validateArtifact` never checks a proof against
`merkle_root`, so an artifact with one byte of one proof node mutated still
validates (`valid = true`), refuting the claimed `ArtifactInvalid`
rejection. -/
theorem claim4_counterexample :
    mutateFirstProofNode c4Artifact ≠ c4Artifact ∧
    (validateArtifact c4Artifact).valid = true ∧
    (validateArtifact (mutateFirstProofNode c4Artifact)).valid = true := by
  refine ⟨by decide, by decide, by decide⟩

/-- C4 amended: `validateArtifact` reads only field presence, the proof
amount total, and the recipient count — it is insensitive to the proof
node bytes, so arbitrary changes to every `proof_nodes` entry leave the
validation outcome unchanged. -/
theorem claim4_validate_ignores_nodes (a : DistributionArtifact)
    (f : List String → List String) :
    validateArtifact
        { a with proofs := (a.proofs.map (fun p => { p with proof := f p.proof })) } =
      validateArtifact a := by
  simp [validateArtifact, List.foldl_map, List.length_map]

/-- How the builder counts recipients: the parsed (filtered) entries. -/
theorem buildDistributionArtifact_numRecipients {rows : List PayoutEntry}
    {cs ca : String} {a : DistributionArtifact}
    (h : buildDistributionArtifact rows cs ca = .ok a) :
    a.numRecipients = (parseCsv rows).length := by
  unfold buildDistributionArtifact at h
  by_cases h1 : (parseCsv rows).length = 0
  · simp only [if_pos h1] at h
    exact Except.noConfusion h
  · simp only [if_neg h1] at h
    by_cases h2 : (uniqueList ((parseCsv rows).map (·.mint))).length ≠ 1
    · simp only [if_pos h2] at h
      exact Except.noConfusion h
    · simp only [if_neg h2] at h
      by_cases h3 : ((parseCsv rows).map (fun x => x.amount)).sum < 2 ^ 64
      · simp only [if_pos h3] at h
        split at h
        · exact Except.noConfusion h
        · injection h with h4
          rw [← h4]
      · simp only [if_neg h3] at h
        exact Except.noConfusion h

/-- C5 counterexample: an input containing a zero-amount entry builds
without any error — the zero row is silently dropped (one recipient, total
1000), refuting the claimed `InputInvalid` failure. -/
theorem claim5_counterexample :
    (buildDistributionArtifact
      [⟨"11111111111111111111111111111111", "m1", 1000, "r1", "w1"⟩,
       ⟨"11111111111111111111111111111112", "m1", 0, "r1", "w1"⟩] "h" "t").map
      (fun a => (a.numRecipients, a.totalAmount)) = .ok (1, 1000) := by
  rfl

/-- C5 amended: zero-amount (and empty-wallet) rows are silently filtered
out by `parseCsv`; the artifact is built from the surviving rows alone, and
its recipient count is the number of surviving rows. -/
theorem claim5_zero_amount_dropped (rows : List PayoutEntry) (cs ca : String) :
    buildDistributionArtifact rows cs ca =
        buildDistributionArtifact (parseCsv rows) cs ca ∧
      (buildDistributionArtifact rows cs ca).map (·.numRecipients) =
        (buildDistributionArtifact rows cs ca).map
          (fun _ => (parseCsv rows).length) := by
  refine ⟨buildDistributionArtifact_congr cs ca (parseCsv_idem rows).symm, ?_⟩
  rcases hb : buildDistributionArtifact rows cs ca with e | a
  · rfl
  · rw [show (Except.ok a : Except String DistributionArtifact).map
        (·.numRecipients) = .ok a.numRecipients from rfl,
      show (Except.ok a : Except String DistributionArtifact).map
        (fun _ => (parseCsv rows).length) = .ok (parseCsv rows).length from rfl,
      buildDistributionArtifact_numRecipients hb]

/-- C6 counterexample: the id preimage has no field framing, so the
distinct tuples `("ab", "c")` and `("a", "bc")` (differing in both
reward and window fields) hash the same byte string and receive the same
distribution identifier, refuting injectivity across tuples. -/
theorem claim6_counterexample :
    ("ab", "c") ≠ ("a", "bc") ∧
    idPreimage "ab" "c" "mint" 7 = idPreimage "a" "bc" "mint" 7 ∧
    generateDistributionId "ab" "c" "mint" 7 =
      generateDistributionId "a" "bc" "mint" 7 := by
  have hpre : idPreimage "ab" "c" "mint" 7 = idPreimage "a" "bc" "mint" 7 := by decide
  exact ⟨by decide, hpre, congrArg (fun p => toHex (sha256 p)) hpre⟩

/-- C6 amended: `generateDistributionId` is a deterministic function of the
four inputs, and changing any single component while the other three stay
fixed changes the hashed byte string (totals below `2 ^ 64`); only
multi-component changes can collide, because the string fields carry no
length framing. -/
theorem claim6_single_field (r r' w w' m m' : String) (t t' : Nat)
    (ht : t < 2 ^ 64) (ht' : t' < 2 ^ 64) :
    (r ≠ r' → idPreimage r w m t ≠ idPreimage r' w m t) ∧
    (w ≠ w' → idPreimage r w m t ≠ idPreimage r w' m t) ∧
    (m ≠ m' → idPreimage r w m t ≠ idPreimage r w m' t) ∧
    (t ≠ t' → idPreimage r w m t ≠ idPreimage r w m t') := by
  refine ⟨fun hne heq => hne ?_, fun hne heq => hne ?_, fun hne heq => hne ?_,
    fun hne heq => hne ?_⟩
  · simp only [idPreimage, List.append_assoc] at heq
    exact strBytes_inj (append_cancel_end (List.append_cancel_left heq))
  · simp only [idPreimage, List.append_assoc] at heq
    exact strBytes_inj (append_cancel_end
      (List.append_cancel_left (List.append_cancel_left heq)))
  · simp only [idPreimage, List.append_assoc] at heq
    exact strBytes_inj (append_cancel_end
      (List.append_cancel_left (List.append_cancel_left (List.append_cancel_left heq))))
  · simp only [idPreimage, List.append_assoc] at heq
    exact le8_inj ht ht'
      (List.append_cancel_left (List.append_cancel_left
        (List.append_cancel_left (List.append_cancel_left heq))))

/-- C6 witness: changing only the reward id changes the preimage. -/
theorem claim6_single_field_witness :
    idPreimage "a" "w" "m" 0 ≠ idPreimage "b" "w" "m" 0 :=
  (claim6_single_field "a" "b" "w" "w" "m" "m" 0 0 (by decide) (by decide)).1
    (by decide)

/-- C8: a claim whose on-chain uniqueness marker already exists at
reconciliation time is marked confirmed, contributes no claim instruction
to the batch transaction, is counted as skipped, and is never counted as a
failure. -/
theorem claim8_already_claimed (cfg : RelayerConfig) (did : String)
    (chain : ChainState) (sendOk : Nat → Bool) (sig errMsg : String)
    (claims : List MerkleProofRec) (db : ClaimDb) (c : MerkleProofRec) (r : ClaimRow)
    (hr : dbGet db (did, c.index) = some r)
    (hmem : c ∈ claims) (hclaimed : chain.claimed c.index = true)
    (hnodup : (claims.map (·.index)).Nodup)
    (hidx : ∀ x ∈ claims, x.index < 2 ^ 64) :
    (dbGet (processBatch cfg did chain sendOk sig errMsg claims db).db
        (did, c.index)).map (·.status) = some "confirmed" ∧
    (∀ d, Instruction.claim d ∈
        (processBatch cfg did chain sendOk sig errMsg claims db).instructions →
      claimIxIndex d ≠ c.index) ∧
    (processBatch cfg did chain sendOk sig errMsg claims db).skipped =
      (claims.filter (fun x => chain.claimed x.index)).length ∧
    (processBatch cfg did chain sendOk sig errMsg claims db).processed +
        (processBatch cfg did chain sendOk sig errMsg claims db).failed ≤
      (claims.filter (fun x => !chain.claimed x.index)).length := by
  refine ⟨?_, ?_,
    (processBatch_counts cfg did chain sendOk sig errMsg claims db).1,
    (processBatch_counts cfg did chain sendOk sig errMsg claims db).2⟩
  · rw [processBatch_dbGet cfg did chain sendOk sig errMsg claims db c hmem hnodup,
      hr, if_pos hclaimed]
    simp [applyClaimUpdate]
  · intro d hd
    rw [processBatch_instructions] at hd
    simp only [List.mem_cons, List.mem_flatMap] at hd
    rcases hd with h1 | h1 | h1
    · exact Instruction.noConfusion h1
    · exact Instruction.noConfusion h1
    · obtain ⟨x, hx, hmemx⟩ := h1
      rw [List.mem_append] at hmemx
      rcases hmemx with hA | hB
      · by_cases hata : chain.ataExists x.wallet
        · rw [if_pos hata] at hA
          exact absurd hA (List.not_mem_nil _)
        · rw [if_neg hata] at hA
          exact Instruction.noConfusion (List.mem_singleton.mp hA)
      · have hdx : d = claimIxData x.index x.amount x.proof := by
          have hclaimeq := List.mem_singleton.mp hB
          injection hclaimeq
        have hxmem : x ∈ claims := (List.mem_filter.mp hx).1
        rw [hdx, claimIxIndex_claimIxData x.index x.amount x.proof (hidx x hxmem)]
        intro hxi
        have hxu := (List.mem_filter.mp hx).2
        rw [hxi, hclaimed] at hxu
        simp at hxu

/-- C8 witness: one already-claimed claim is confirmed and skipped. -/
theorem claim8_already_claimed_witness :
    (dbGet (processBatch ⟨3, 200000, 1⟩ "d" ⟨fun _ => true, fun _ => true⟩
        (fun _ => true) "sig" "err" [⟨0, "w", 5, []⟩]
        [(("d", 0), ⟨"w", 5, "pending", none, 0, false, false, none⟩)]).db
        ("d", 0)).map (·.status) = some "confirmed" ∧
    (processBatch ⟨3, 200000, 1⟩ "d" ⟨fun _ => true, fun _ => true⟩
        (fun _ => true) "sig" "err" [⟨0, "w", 5, []⟩]
        [(("d", 0), ⟨"w", 5, "pending", none, 0, false, false, none⟩)]).skipped = 1 := by
  have h := claim8_already_claimed ⟨3, 200000, 1⟩ "d" ⟨fun _ => true, fun _ => true⟩
    (fun _ => true) "sig" "err" [⟨0, "w", 5, []⟩]
    [(("d", 0), ⟨"w", 5, "pending", none, 0, false, false, none⟩)]
    ⟨0, "w", 5, []⟩ ⟨"w", 5, "pending", none, 0, false, false, none⟩
    rfl (by decide) rfl (by decide) (by decide)
  exact ⟨h.1, h.2.2.1⟩

/-- C10: the builder rejects inputs whose parsed rows carry more than one
distinct mint; with a single mint it succeeds, drawing `reward_id`,
`window_id` and `mint` from the first parsed entry only — rows may disagree
on `reward_id`/`window_id` without error, and the distribution identifier
commits only to the first row's values. -/
theorem claim10_first_row (rows : List PayoutEntry) (cs ca : String)
    (hne : (parseCsv rows).length ≠ 0)
    (htot : parsedTotal rows < 2 ^ 64)
    (hw : ∀ e ∈ parseCsv rows, (pubkeyBytes e.wallet).isSome) :
    ((uniqueList ((parseCsv rows).map (·.mint))).length ≠ 1 →
      buildDistributionArtifact rows cs ca = .error
        ("Expected single mint, found: " ++
          String.intercalate ", " (uniqueList ((parseCsv rows).map (·.mint))))) ∧
    ((uniqueList ((parseCsv rows).map (·.mint))).length = 1 →
      (buildDistributionArtifact rows cs ca).map
          (fun a => (a.rewardId, a.windowId, a.mint, a.distributionId)) =
        .ok ((firstEntry rows).rewardId, (firstEntry rows).windowId,
          (firstEntry rows).mint,
          generateDistributionId (firstEntry rows).rewardId
            (firstEntry rows).windowId (firstEntry rows).mint (parsedTotal rows))) := by
  constructor
  · intro hm
    unfold buildDistributionArtifact
    simp only [if_neg hne, if_pos hm]
  · intro hm
    obtain ⟨a, hok, h1, h2, h3, h4, _⟩ :=
      buildDistributionArtifact_ok rows cs ca hne hm htot hw
    rw [hok]
    simp [Except.map, h1, h2, h3, h4]

/-- C10 witness: two rows that disagree on `reward_id` and `window_id`
but share a mint build successfully, committing to the first row's
metadata. -/
theorem claim10_first_row_witness :
    (buildDistributionArtifact
      [⟨"11111111111111111111111111111111", "m1", 1000, "rA", "wA"⟩,
       ⟨"11111111111111111111111111111112", "m1", 500, "rB", "wB"⟩] "h" "t").map
      (fun a => (a.rewardId, a.windowId, a.mint, a.distributionId)) =
    .ok ("rA", "wA", "m1", generateDistributionId "rA" "wA" "m1" 1500) :=
  (claim10_first_row
    [⟨"11111111111111111111111111111111", "m1", 1000, "rA", "wA"⟩,
     ⟨"11111111111111111111111111111112", "m1", 500, "rB", "wB"⟩] "h" "t"
    (by decide) (by decide) (by decide)).2 (by decide)

end LstRewards
